import Mathlib

/-!
Formal model of the music-state engine of the circle-of-fifths MIDI
visualiser (`src/vis.py`): the static note-name, circle-of-fifths, scale
and chord tables, the chord recognizer `recognize_chord`, the scale
builder `get_scale`, and the note-on/note-off state machine of `main`'s
event loop.  MIDI note numbers, status bytes and velocities are modelled
as `ℕ` (Python's nonnegative ints here), scale roots and patterns as `ℤ`
(Python `%` on ints is Euclidean mod, as is `Int.emod`), the Python set
`pressed_notes` as a `Finset ℕ`, and Python's `sorted` builtin as an
insertion sort on the underlying multiset of generator values.
-/

/-- The note-name table `NOTES` of vis.py, in circle-of-fifths order. -/
def NOTES : List String :=
  ["C", "G", "D", "A", "E", "B", "F#/Gb", "C#/Db", "G#/Ab", "D#/Eb", "A#/Bb", "F"]

/-- The dict `MIDI_TO_CIRCLE` of vis.py as a function.  The dict's keys are
exactly the pitch classes 0–11 and the program only ever looks it up at
`note % 12`; the final catch-all branch lies outside the dict's key set and
is never reached by the program's lookups. -/
def MIDI_TO_CIRCLE : ℕ → ℕ
  | 0 => 0 | 1 => 7 | 2 => 2 | 3 => 9 | 4 => 4 | 5 => 11
  | 6 => 6 | 7 => 1 | 8 => 8 | 9 => 3 | 10 => 10 | 11 => 5
  | _ => 0

/-- The list `MAJOR_SCALE` of vis.py. -/
def MAJOR_SCALE : List ℤ := [0, 2, 4, 5, 7, 9, 11]

/-- The list `NATURAL_MINOR_SCALE` of vis.py. -/
def NATURAL_MINOR_SCALE : List ℤ := [0, 2, 3, 5, 7, 8, 10]

/-- The list `HARMONIC_MINOR_SCALE` of vis.py. -/
def HARMONIC_MINOR_SCALE : List ℤ := [0, 2, 3, 5, 7, 8, 11]

/-- The list `PENTATONIC_SCALE` of vis.py. -/
def PENTATONIC_SCALE : List ℤ := [0, 2, 4, 7, 9]

/-- The dict `CHORD_TYPES` of vis.py, keyed by sorted interval tuples, as an
association list; `CHORD_TYPES.get(intervals, "Complex")` becomes
`(List.lookup intervals CHORD_TYPES).getD "Complex"`. -/
def CHORD_TYPES : List (List ℕ × String) :=
  [([0, 4, 7], "Major"),
   ([0, 3, 7], "Minor"),
   ([0, 4, 7, 10], "Dominant 7th"),
   ([0, 3, 7, 10], "Minor 7th"),
   ([0, 4, 7, 11], "Major 7th"),
   ([0, 3, 6], "Diminished"),
   ([0, 3, 6, 9], "Diminished 7th"),
   ([0, 4, 8], "Augmented"),
   ([0, 2, 7], "Sus2"),
   ([0, 5, 7], "Sus4"),
   ([0, 4, 7, 9], "6th"),
   ([0, 3, 7, 9], "Minor 6th"),
   ([0, 4, 7, 10, 14], "9th"),
   ([0, 4, 7, 10, 14, 17], "11th"),
   ([0, 4, 7, 10, 14, 17, 21], "13th")]

/-- Python's `sorted` applied to a multiset of naturals: the ascending list
of the multiset's elements, kept with multiplicity.  Well defined on the
quotient because insertion sorts of permuted lists are permuted sorted
lists, hence equal. -/
def multisetSorted (m : Multiset ℕ) : List ℕ :=
  Quot.liftOn m (fun l => l.insertionSort (· ≤ ·)) fun l₁ l₂ h =>
    List.eq_of_perm_of_sorted
      (((List.perm_insertionSort _ l₁).trans h).trans
        (List.perm_insertionSort _ l₂).symm)
      (List.sorted_insertionSort _ l₁) (List.sorted_insertionSort _ l₂)

/-- The interval tuple of `recognize_chord`:
`tuple(sorted((note - root) % 12 for note in pressed_notes))`.  The
generator runs over the set of held notes, so the resulting values form a
multiset (two notes an octave apart yield the same value twice); `sorted`
turns it into an ascending list, with multiplicity and no deduplication. -/
def chord_intervals (pressed_notes : Finset ℕ) (root : ℕ) : List ℕ :=
  multisetSorted (pressed_notes.val.map fun note => (note - root) % 12)

/-- The function `recognize_chord` of vis.py.  Returns `none` for fewer than three held
notes, otherwise the triple `(label, root % 12, chord_type)`.  `root` is
`min(pressed_notes)`, so Nat subtraction in the intervals agrees with
Python's. -/
def recognize_chord (pressed_notes : Finset ℕ) : Option (String × ℕ × String) :=
  if h : pressed_notes.card < 3 then
    none
  else
    let root := pressed_notes.min' (Finset.card_pos.mp (by omega))
    let intervals := chord_intervals pressed_notes root
    let chord_type := (List.lookup intervals CHORD_TYPES).getD "Complex"
    let root_name := NOTES.getD (MIDI_TO_CIRCLE (root % 12)) ""
    some (root_name ++ " " ++ chord_type, root % 12, chord_type)

/-- The function `get_scale` of vis.py: string-compared scale names select a pattern,
anything else falls through to `[]`. -/
def get_scale (root : ℤ) (scale_type : String) : List ℤ :=
  if scale_type = "Major" then
    MAJOR_SCALE.map fun interval => (root + interval) % 12
  else if scale_type = "Natural Minor" then
    NATURAL_MINOR_SCALE.map fun interval => (root + interval) % 12
  else if scale_type = "Harmonic Minor" then
    HARMONIC_MINOR_SCALE.map fun interval => (root + interval) % 12
  else if scale_type = "Pentatonic" then
    PENTATONIC_SCALE.map fun interval => (root + interval) % 12
  else []

/-- The mutable state of `main`'s event loop that the MIDI branch touches:
the held-note set, the set of circle note names currently lit, the keys of
the `active_sounds` dict (the sound objects themselves are audio I/O and
carry no further state), and the scale-root candidate. -/
structure EngineState where
  pressed_midi_notes : Finset ℕ
  pressed_circle_notes : Finset String
  active_sounds : Finset ℕ
  scale_root : Option ℕ
deriving DecidableEq

/-- One MIDI event of `main`'s loop body (vis.py lines 236–261).  `rawStatus`
is `event[0][0]`, masked with `0xF0` as in the source.  Returns the state as
mutated when the handler finishes — or, paired with `some msg`, the state as
already mutated when the handler raises: `note_sounds` has keys exactly
0–127, so a note-on for a note outside that range reaches
`note_sounds[note].play(-1)` and raises an uncaught `KeyError` after the
pressed sets were updated but before `active_sounds` and `scale_root` are
touched. -/
def process_midi_event (s : EngineState) (rawStatus note velocity : ℕ) :
    EngineState × Option String :=
  let status := rawStatus &&& 0xF0
  if status = 0x90 ∧ velocity > 0 then
    let pressed := insert note s.pressed_midi_notes
    let note_name := NOTES.getD (MIDI_TO_CIRCLE (note % 12)) ""
    let circle := insert note_name s.pressed_circle_notes
    if note ∈ s.active_sounds then
      (⟨pressed, circle, s.active_sounds,
        if pressed.card = 1 then some (note % 12) else s.scale_root⟩, none)
    else if note < 128 then
      (⟨pressed, circle, insert note s.active_sounds,
        if pressed.card = 1 then some (note % 12) else s.scale_root⟩, none)
    else
      (⟨pressed, circle, s.active_sounds, s.scale_root⟩, some "KeyError: note_sounds")
  else if status = 0x80 ∨ (status = 0x90 ∧ velocity = 0) then
    let pressed := s.pressed_midi_notes.erase note
    let note_name := NOTES.getD (MIDI_TO_CIRCLE (note % 12)) ""
    let circle := s.pressed_circle_notes.erase note_name
    let sounds := s.active_sounds.erase note
    (⟨pressed, circle, sounds,
      if pressed.card = 0 then none else s.scale_root⟩, none)
  else
    (s, none)

theorem sorted_multisetSorted (m : Multiset ℕ) :
    List.Sorted (· ≤ ·) (multisetSorted m) := by
  induction m using Quot.inductionOn with
  | _ l => exact List.sorted_insertionSort _ l

theorem coe_multisetSorted (m : Multiset ℕ) : (multisetSorted m : Multiset ℕ) = m := by
  induction m using Quot.inductionOn with
  | _ l => exact Quot.sound (List.perm_insertionSort _ l)

theorem length_multisetSorted (m : Multiset ℕ) :
    (multisetSorted m).length = Multiset.card m := by
  induction m using Quot.inductionOn with
  | _ l => exact (List.perm_insertionSort _ l).length_eq

theorem mem_multisetSorted {m : Multiset ℕ} {x : ℕ} :
    x ∈ multisetSorted m ↔ x ∈ m := by
  rw [← Multiset.mem_coe, coe_multisetSorted]

/-- Unfolding `recognize_chord` past its size guard. -/
theorem recognize_chord_eq (pressed : Finset ℕ) (h : ¬ pressed.card < 3)
    (hne : pressed.Nonempty) :
    recognize_chord pressed =
      some (NOTES.getD (MIDI_TO_CIRCLE (pressed.min' hne % 12)) "" ++ " " ++
              (List.lookup (chord_intervals pressed (pressed.min' hne)) CHORD_TYPES).getD
                "Complex",
            pressed.min' hne % 12,
            (List.lookup (chord_intervals pressed (pressed.min' hne)) CHORD_TYPES).getD
              "Complex") := by
  rw [recognize_chord, dif_neg h]

theorem chord_intervals_lt_12 (pressed : Finset ℕ) (root : ℕ) :
    ∀ x ∈ chord_intervals pressed root, x < 12 := by
  intro x hx
  rw [chord_intervals, mem_multisetSorted, Multiset.mem_map] at hx
  obtain ⟨n, _, rfl⟩ := hx
  exact Nat.mod_lt _ (by norm_num)

theorem mem_of_lookup_eq_some {k : List ℕ} {s : String} :
    ∀ {l : List (List ℕ × String)}, List.lookup k l = some s → (k, s) ∈ l := by
  intro l
  induction l with
  | nil => intro h; cases h
  | cons p t ih =>
    obtain ⟨pk, pv⟩ := p
    intro h
    rw [List.lookup] at h
    rcases hb : (k == pk) with _ | _
    · rw [hb] at h
      exact List.mem_cons_of_mem _ (ih h)
    · rw [hb] at h
      have hk : k = pk := by simpa using hb
      have hv : pv = s := by simpa using h
      subst hk; subst hv
      exact List.mem_cons_self _ _

theorem extended_chords_unreachable (l : List ℕ) (hl : ∀ x ∈ l, x < 12) :
    List.lookup l CHORD_TYPES ≠ some "9th" ∧
    List.lookup l CHORD_TYPES ≠ some "11th" ∧
    List.lookup l CHORD_TYPES ≠ some "13th" := by
  refine ⟨fun h => ?_, fun h => ?_, fun h => ?_⟩ <;>
  · have hmem := mem_of_lookup_eq_some h
    simp only [CHORD_TYPES] at hmem
    simp at hmem
    have h14 : (14 : ℕ) ∈ l := by rw [hmem]; simp
    exact absurd (hl 14 h14) (by omega)

/-- C9: the fixed pitch-class-to-circle-of-fifths mapping is a bijection on
[0,11]: injective there, and its image is exactly {0,…,11}. -/
theorem midi_to_circle_bijective_on_pitch_classes :
    Set.InjOn MIDI_TO_CIRCLE (Set.Iio 12) ∧
    (Finset.range 12).image MIDI_TO_CIRCLE = Finset.range 12 := by
  constructor
  · have h : ∀ a < 12, ∀ b < 12, MIDI_TO_CIRCLE a = MIDI_TO_CIRCLE b → a = b := by decide
    exact fun a ha b hb hab => h a ha b hb hab
  · decide

/-- C8: a NoteOn event (status 0x90) with velocity 0 produces exactly the same
state transition as a NoteOff event (status 0x80) for the same note, from any
engine state. -/
theorem noteOn_velocity_zero_eq_noteOff (s : EngineState) (n v : ℕ) :
    process_midi_event s 0x90 n 0 = process_midi_event s 0x80 n v := by
  have e1 : (0x90 &&& 0xF0 : ℕ) = 0x90 := by decide
  have e2 : (0x80 &&& 0xF0 : ℕ) = 0x80 := by decide
  simp [process_midi_event, e1, e2]

/-- C2 (code evaluated at the failing input): from the reachable state where
only note 62 is held and the scale-root candidate is pitch class 0 (set by an
earlier first note 60, since released), re-pressing 62 with velocity 64 leaves
the held-note set unchanged but overwrites the scale-root candidate with
62 mod 12 = 2, because the `len(pressed_midi_notes) == 1` test runs after the
(idempotent) insert. -/
theorem repress_held_note_overwrites_scale_root :
    process_midi_event ⟨{62}, {"D"}, {62}, some 0⟩ 0x90 62 64 =
      (⟨{62}, {"D"}, {62}, some 2⟩, none) ∧
    (some 2 : Option ℕ) ≠ some 0 := by decide

/-- C7 counterexample: `recognize_chord {61, 64, 68}` returns root pitch
class 1, interval tuple (0,3,7) and chord type Minor, but its label text is
"C#/Db Minor" (the circle-of-fifths name table entry for pitch class 1 is
"C#/Db"), not "C# Minor" as the claim states. -/
theorem recognize_61_64_68_label_not_c_sharp :
    recognize_chord {61, 64, 68} = some ("C#/Db Minor", 1, "Minor") ∧
    "C#/Db Minor" ≠ "C# Minor" := by decide

/-- C7 amended: `recognize_chord {61, 64, 68}` returns root pitch class 1,
interval tuple (0,3,7), chord type Minor, and label text "C#/Db Minor". -/
theorem recognize_61_64_68_c_sharp_minor :
    recognize_chord {61, 64, 68} = some ("C#/Db Minor", 1, "Minor") ∧
    chord_intervals {61, 64, 68} 61 = [0, 3, 7] := by decide

/-- C4 counterexample: a scale name outside the four enumerated values does
not fail fast; `get_scale` silently returns the empty list, the same value the
caller uses for the "no scale selected" case. -/
theorem get_scale_unknown_name_silent_empty :
    get_scale 0 "Dorian" = [] := by decide

/-- C4 amended: for every root and every scale name outside the four
enumerated values, `get_scale` returns the silent empty list (no error path
exists), which coincides with the "no scale selected" result. -/
theorem get_scale_unknown_name_empty (root : ℤ) (scale_type : String)
    (h1 : scale_type ≠ "Major") (h2 : scale_type ≠ "Natural Minor")
    (h3 : scale_type ≠ "Harmonic Minor") (h4 : scale_type ≠ "Pentatonic") :
    get_scale root scale_type = [] := by
  simp [get_scale, h1, h2, h3, h4]

/-- C4 witness: the amended theorem at root 3 and name "Dorian". -/
theorem get_scale_unknown_name_empty_witness : get_scale 3 "Dorian" = [] :=
  get_scale_unknown_name_empty 3 "Dorian" (by decide) (by decide) (by decide)
    (by decide)

/-- C5 counterexample: a NoteOn for out-of-range note 200 is not rejected
with the state left unchanged: from the empty start state the engine inserts
200 into the held-note set and its name into the circle set, and then the
handler dies with an uncaught KeyError from the audio glue's
`note_sounds[note]` lookup (keys 0–127) — the held state has already been
mutated. -/
theorem out_of_range_note_mutates_state :
    process_midi_event ⟨∅, ∅, ∅, none⟩ 0x90 200 64 =
      (⟨{200}, {"G#/Ab"}, ∅, none⟩, some "KeyError: note_sounds") ∧
    (⟨{200}, {"G#/Ab"}, ∅, none⟩ : EngineState) ≠ ⟨∅, ∅, ∅, none⟩ := by decide

/-- C5 amended: the engine performs no MidiNote range validation. A NoteOn
for any note above 127 (with positive velocity, from any state not already
sounding it) inserts the note into the held set and its mod-12 name into the
circle set exactly as for an in-range note, and then raises an uncaught
KeyError from the `note_sounds` dict in the audio glue, skipping the
scale-root update — it is never rejected with state intact. -/
theorem noteOn_out_of_range_no_validation (s : EngineState) (note velocity : ℕ)
    (h1 : 127 < note) (h2 : note ∉ s.active_sounds) (h3 : 0 < velocity) :
    process_midi_event s 0x90 note velocity =
      (⟨insert note s.pressed_midi_notes,
        insert (NOTES.getD (MIDI_TO_CIRCLE (note % 12)) "") s.pressed_circle_notes,
        s.active_sounds, s.scale_root⟩, some "KeyError: note_sounds") := by
  have h4 : ¬ note < 128 := by omega
  have e1 : (0x90 &&& 0xF0 : ℕ) = 0x90 := by decide
  simp [process_midi_event, e1, h2, h3, h4]

/-- C5 witness: the amended theorem at the empty start state, note 200,
velocity 64. -/
theorem noteOn_out_of_range_no_validation_witness :
    process_midi_event ⟨∅, ∅, ∅, none⟩ 0x90 200 64 =
      (⟨insert 200 ∅,
        insert (NOTES.getD (MIDI_TO_CIRCLE (200 % 12)) "") ∅, ∅, none⟩,
        some "KeyError: note_sounds") :=
  noteOn_out_of_range_no_validation ⟨∅, ∅, ∅, none⟩ 200 64 (by decide) (by decide)
    (by decide)

/-- C3: `recognize_chord` never returns chord type "9th", "11th" or "13th":
those catalog keys contain offset 14 > 11, while every computed interval is
reduced mod 12, so the exact-match lookup can never select them. -/
theorem recognize_never_extended (pressed : Finset ℕ) (label : String) (root : ℕ)
    (ctype : String) (h : recognize_chord pressed = some (label, root, ctype)) :
    ctype ≠ "9th" ∧ ctype ≠ "11th" ∧ ctype ≠ "13th" := by
  by_cases hc : pressed.card < 3
  · rw [recognize_chord, dif_pos hc] at h
    cases h
  · have hne : pressed.Nonempty := Finset.card_pos.mp (by omega)
    rw [recognize_chord_eq pressed hc hne] at h
    simp only [Option.some.injEq, Prod.mk.injEq] at h
    obtain ⟨-, -, hct⟩ := h
    subst hct
    have hext := extended_chords_unreachable _
      (chord_intervals_lt_12 pressed (pressed.min' hne))
    rcases hlk : List.lookup (chord_intervals pressed (pressed.min' hne)) CHORD_TYPES
      with _ | s
    · simp [hlk]
    · rw [hlk] at hext
      simp only [hlk, Option.getD_some]
      exact ⟨fun hs => hext.1 (by rw [hs]), fun hs => hext.2.1 (by rw [hs]),
        fun hs => hext.2.2 (by rw [hs])⟩

/-- C3 witness: {60, 64, 67, 70, 74} is held (five notes, intervals
(0,2,4,7,10)), `recognize_chord` returns chord type "Complex", and that type
is none of the three extended names. -/
theorem recognize_never_extended_witness :
    ("Complex" : String) ≠ "9th" ∧ ("Complex" : String) ≠ "11th" ∧
    ("Complex" : String) ≠ "13th" :=
  recognize_never_extended {60, 64, 67, 70, 74} "C Complex" 0 "Complex" (by decide)

/-- C6: `recognize_chord` returns none exactly when fewer than 3 distinct
notes are held; with 3 or more it always returns some label whose root is the
lowest held note's pitch class, and when the interval tuple has no catalog
match the chord type is "Complex". -/
theorem recognize_none_iff_below_threshold (pressed : Finset ℕ) :
    (recognize_chord pressed = none ↔ pressed.card < 3) ∧
    (3 ≤ pressed.card →
      ∃ root label ctype, pressed.min = some root ∧
        recognize_chord pressed = some (label, root % 12, ctype) ∧
        (List.lookup (chord_intervals pressed root) CHORD_TYPES = none →
          ctype = "Complex")) := by
  constructor
  · constructor
    · intro h
      by_contra hc
      have hne : pressed.Nonempty := Finset.card_pos.mp (by omega)
      rw [recognize_chord_eq pressed hc hne] at h
      cases h
    · intro h
      rw [recognize_chord, dif_pos h]
  · intro h3
    have hc : ¬ pressed.card < 3 := by omega
    have hne : pressed.Nonempty := Finset.card_pos.mp (by omega)
    refine ⟨pressed.min' hne, _, _, ?_, recognize_chord_eq pressed hc hne, ?_⟩
    · exact (Finset.coe_min' hne).symm
    · intro hnone
      simp [hnone]

/-- C1 counterexample: the held set {60, 64, 67, 72} (C major triad with the
root doubled one octave up). The interval tuple is NOT deduplicated: it is
(0, 0, 4, 7), not (0, 4, 7), so the set is classified "Complex", not
"Major". -/
theorem interval_tuple_not_deduplicated :
    chord_intervals {60, 64, 67, 72} 60 = [0, 0, 4, 7] ∧
    [0, 0, 4, 7] ≠ [0, 4, 7] ∧
    recognize_chord {60, 64, 67, 72} = some ("C Complex", 0, "Complex") := by decide

/-- C1 amended: for a held set of at least 3 notes, `recognize_chord` uses as
interval tuple the ascending list of (note - root) mod 12 over the held notes
WITH multiplicity (root = lowest note, contributing 0): its length equals the
number of held notes, so pitch classes doubled across octaves contribute
duplicate entries and the doubled set {60, 64, 67, 72} yields (0, 0, 4, 7),
which fails the exact catalog match. -/
theorem recognize_intervals_with_multiplicity (pressed : Finset ℕ)
    (h : 3 ≤ pressed.card) :
    ∃ root, pressed.min = some root ∧
      (chord_intervals pressed root).length = pressed.card ∧
      List.Sorted (· ≤ ·) (chord_intervals pressed root) ∧
      (chord_intervals pressed root : Multiset ℕ) =
        pressed.val.map (fun note => (note - root) % 12) ∧
      recognize_chord pressed =
        some (NOTES.getD (MIDI_TO_CIRCLE (root % 12)) "" ++ " " ++
                (List.lookup (chord_intervals pressed root) CHORD_TYPES).getD
                  "Complex",
              root % 12,
              (List.lookup (chord_intervals pressed root) CHORD_TYPES).getD
                "Complex") := by
  have hc : ¬ pressed.card < 3 := by omega
  have hne : pressed.Nonempty := Finset.card_pos.mp (by omega)
  refine ⟨pressed.min' hne, (Finset.coe_min' hne).symm, ?_, sorted_multisetSorted _,
    coe_multisetSorted _, recognize_chord_eq pressed hc hne⟩
  rw [chord_intervals, length_multisetSorted, Multiset.card_map]
  rfl

/-- C1 amended witness: the amended theorem at {60, 64, 67, 72}. -/
theorem recognize_intervals_with_multiplicity_witness :
    ∃ root, ({60, 64, 67, 72} : Finset ℕ).min = some root ∧
      (chord_intervals {60, 64, 67, 72} root).length =
        ({60, 64, 67, 72} : Finset ℕ).card ∧
      List.Sorted (· ≤ ·) (chord_intervals {60, 64, 67, 72} root) ∧
      (chord_intervals {60, 64, 67, 72} root : Multiset ℕ) =
        ({60, 64, 67, 72} : Finset ℕ).val.map (fun note => (note - root) % 12) ∧
      recognize_chord {60, 64, 67, 72} =
        some (NOTES.getD (MIDI_TO_CIRCLE (root % 12)) "" ++ " " ++
                (List.lookup (chord_intervals {60, 64, 67, 72} root)
                  CHORD_TYPES).getD "Complex",
              root % 12,
              (List.lookup (chord_intervals {60, 64, 67, 72} root)
                CHORD_TYPES).getD "Complex") :=
  recognize_intervals_with_multiplicity {60, 64, 67, 72} (by decide)

theorem scale_map_mem_range (root : ℤ) (pat : List ℤ) :
    ∀ x ∈ pat.map fun interval => (root + interval) % 12, 0 ≤ x ∧ x < 12 := by
  intro x hx
  simp only [List.mem_map] at hx
  obtain ⟨i, -, rfl⟩ := hx
  exact ⟨Int.emod_nonneg _ (by norm_num), Int.emod_lt_of_pos _ (by norm_num)⟩

/-- C10: for every integer root and each of the four recognized scale names,
every member returned by `get_scale` lies in [0,11] and the list's length is
the selected pattern's length (7, 7, 7 and 5 respectively). -/
theorem get_scale_members_range_and_length (root : ℤ) :
    ((∀ x ∈ get_scale root "Major", 0 ≤ x ∧ x < 12) ∧
      (get_scale root "Major").length = MAJOR_SCALE.length ∧
      MAJOR_SCALE.length = 7) ∧
    ((∀ x ∈ get_scale root "Natural Minor", 0 ≤ x ∧ x < 12) ∧
      (get_scale root "Natural Minor").length = NATURAL_MINOR_SCALE.length ∧
      NATURAL_MINOR_SCALE.length = 7) ∧
    ((∀ x ∈ get_scale root "Harmonic Minor", 0 ≤ x ∧ x < 12) ∧
      (get_scale root "Harmonic Minor").length = HARMONIC_MINOR_SCALE.length ∧
      HARMONIC_MINOR_SCALE.length = 7) ∧
    ((∀ x ∈ get_scale root "Pentatonic", 0 ≤ x ∧ x < 12) ∧
      (get_scale root "Pentatonic").length = PENTATONIC_SCALE.length ∧
      PENTATONIC_SCALE.length = 5) := by
  have hM : get_scale root "Major" =
      MAJOR_SCALE.map fun interval => (root + interval) % 12 := by
    simp [get_scale]
  have hN : get_scale root "Natural Minor" =
      NATURAL_MINOR_SCALE.map fun interval => (root + interval) % 12 := by
    simp [get_scale]
  have hH : get_scale root "Harmonic Minor" =
      HARMONIC_MINOR_SCALE.map fun interval => (root + interval) % 12 := by
    simp [get_scale]
  have hP : get_scale root "Pentatonic" =
      PENTATONIC_SCALE.map fun interval => (root + interval) % 12 := by
    simp [get_scale]
  rw [hM, hN, hH, hP]
  exact ⟨⟨scale_map_mem_range root MAJOR_SCALE, List.length_map _ _, rfl⟩,
    ⟨scale_map_mem_range root NATURAL_MINOR_SCALE, List.length_map _ _, rfl⟩,
    ⟨scale_map_mem_range root HARMONIC_MINOR_SCALE, List.length_map _ _, rfl⟩,
    ⟨scale_map_mem_range root PENTATONIC_SCALE, List.length_map _ _, rfl⟩⟩
